import Mathlib

/-!
A shallow embedding of `src/createTextMask.js` from redux-form-input-masks.

JavaScript strings are modelled as `List Char`; a string argument that may
be JS `undefined` is modelled as `Option (List Char)`.  The helper
functions that `createTextMask.js` imports from `./utils` and
`./defaultMaskDefinitions` are not part of `src/`; each of those is
modelled from the specification and its doc comment says so.  Everything
defined from `createTextMask.js` itself follows that file line by line.
-/

namespace TextMask

/-- A mask-definition rule: a character predicate plus an optional
per-character transform (§3 of the spec). -/
structure MaskRule where
  accepts : Char → Bool
  transform : Option (Char → Char)

/-- The mask-definition table: association list from slot-marker
character to rule. -/
abbrev MaskDefs := List (Char × MaskRule)

/-- Modelled from the spec: `defaultMaskDefinitions`
(`defaultMaskDefinitions.js` is not under `src/`).  §6: a built-in table
with digit and letter classes, the letter classes carrying case-folding
transforms (§2, §4.5). -/
def defaultMaskDefinitions : MaskDefs :=
  [('9', ⟨Char.isDigit, none⟩),
   ('A', ⟨Char.isAlpha, some Char.toUpper⟩),
   ('a', ⟨Char.isAlpha, some Char.toLower⟩)]

/-- The rule for a pattern character, when that character is a slot
marker (a key of the table). -/
def lookupRule (defs : MaskDefs) (c : Char) : Option MaskRule :=
  (defs.find? (fun kv => kv.1 == c)).map (fun kv => kv.2)

/-- Whether a pattern character is a slot marker. -/
def isSlot (defs : MaskDefs) (c : Char) : Bool :=
  (lookupRule defs c).isSome

/-- Modelled from the spec: `charMatchTest` (§4.1; `utils.js` is not
under `src/`): the first table key whose predicate accepts the
character, else `none`. -/
def charMatchTest (c : Char) (defs : MaskDefs) : Option Char :=
  (defs.find? (fun kv => kv.2.accepts c)).map (fun kv => kv.1)

/-- Modelled from the spec: `validCaretPositions` (§4.1): the ascending,
duplicate-free list of slot positions of the pattern (position 0 is
included exactly when the first pattern character is a slot; the
position following a literal run that precedes a slot is that slot's own
position, so the concrete rule of §4.1 reduces to the slot positions). -/
def validCaretPositions (pattern : List Char) (defs : MaskDefs) : List Nat :=
  (List.range pattern.length).filter (fun i =>
    match pattern.get? i with
    | some c => isSlot defs c
    | none => false)

/-- Modelled from the spec: `maskStrip` (§4.3): position-by-position
against the pattern, a character is retained exactly when its pattern
position is a slot and the character differs from the placeholder;
characters beyond the pattern length have no pattern position and are
dropped. -/
def maskStrip (value pattern : List Char) (ph : Char) (defs : MaskDefs) : List Char :=
  (value.zip pattern).filterMap (fun vp =>
    if isSlot defs vp.2 && vp.1 != ph then some vp.1 else none)

/-- Drop raw characters that fail the predicate until one matches;
return that character and the remaining raw input (§4.2: a raw character
failing its slot's predicate is dropped, not retried). -/
def consumeMatching (m : Char → Bool) : List Char → Option (Char × List Char)
  | [] => none
  | c :: cs => if m c then some (c, cs) else consumeMatching m cs

/-- Absorb a pending raw character equal to a literal (§4.2: literals
typed by the user are absorbed rather than duplicated). -/
def absorbLiteral (lit : Char) : List Char → List Char
  | [] => []
  | c :: cs => if c = lit then cs else c :: cs

/-- Apply a rule's transform when it has one. -/
def applyRuleTransform (r : MaskRule) (c : Char) : Char :=
  match r.transform with
  | some f => f c
  | none => c

/-- One left-to-right walk of the pattern (§4.2), with an independent
cursor into the raw input; emits the output characters, each paired with
a flag marking a filled slot.  When the raw input is exhausted at a
slot: guide on emits the placeholder and continues, guide off stops
emitting. -/
def maskWalk (defs : MaskDefs) (ph : Char) (guide : Bool) :
    List Char → List Char → List (Char × Bool)
  | [], _ => []
  | p :: ps, raw =>
    match lookupRule defs p with
    | some rule =>
      match consumeMatching rule.accepts raw with
      | some (c, rest) =>
        (applyRuleTransform rule c, true) :: maskWalk defs ph guide ps rest
      | none =>
        if guide then (ph, false) :: maskWalk defs ph guide ps [] else []
    | none => (p, false) :: maskWalk defs ph guide ps (absorbLiteral p raw)

/-- Truncate a walk to its last filled slot (§4.2, guide off: output is
truncated to the position after the last consumed raw character). -/
def truncateToLastFilled (l : List (Char × Bool)) : List Char :=
  ((l.reverse.dropWhile (fun e => !e.2)).reverse).map (fun e => e.1)

/-- The all-literal/placeholder skeleton of a pattern (§4.2). -/
def skeleton (pattern : List Char) (ph : Char) (defs : MaskDefs) : List Char :=
  pattern.map (fun c => if isSlot defs c then ph else c)

/-- Modelled from the spec: `applyMask` (§4.2): with `allowEmpty` an
empty or all-placeholder raw value formats to the skeleton; without it
an empty raw value formats to the empty string; otherwise the pattern is
walked left to right, padding with placeholders when guide is on and
truncating to the last filled slot when guide is off. -/
def applyMask (raw pattern : List Char) (ph : Char) (guide allowEmpty : Bool)
    (defs : MaskDefs) : List Char :=
  if allowEmpty && raw.all (fun c => c == ph) then skeleton pattern ph defs
  else if raw.isEmpty then []
  else
    let w := maskWalk defs ph guide pattern raw
    if guide then w.map (fun e => e.1) else truncateToLastFilled w

/-- Modelled from the spec: `inputReformat` (§4.4): strip the edited
value positionally against the fixed pattern to recover the raw slot
characters, then re-apply the mask; its output feeds the Mask Stripper
per the control flow of §2. -/
def inputReformat (edited pattern : List Char) (ph : Char)
    (guide allowEmpty : Bool) (defs : MaskDefs) : List Char :=
  applyMask (maskStrip edited pattern ph defs) pattern ph guide allowEmpty defs

/-- Modelled from the spec: `applyTransform` (§4.5): positional
comparison of the new stripped value with the previous one; a position
beyond the previous value's length, or whose character differs from the
previous one, gets the transform of the slot found at the same position
of the stripped pattern; unchanged positions pass through untouched. -/
def applyTransform (defs : MaskDefs) :
    List Char → List Char → List Char → List Char
  | [], _, _ => []
  | c :: cs, p :: ps, s :: ss =>
    (if c = p then c
     else match lookupRule defs s with
       | some r => applyRuleTransform r c
       | none => c) :: applyTransform defs cs ps ss
  | c :: cs, [], s :: ss =>
    (match lookupRule defs s with
     | some r => applyRuleTransform r c
     | none => c) :: applyTransform defs cs [] ss
  | c :: cs, _p :: ps, [] => c :: applyTransform defs cs ps []
  | c :: cs, [], [] => c :: applyTransform defs cs [] []

/-- Modelled from the spec: `firstUnfilledPosition` (§4.6, focus rule):
the earliest slot position whose current character is the placeholder
(a slot position beyond the value's length counts as unfilled); when
every slot is filled, the position just after the last slot. -/
def firstUnfilledPosition (value pattern : List Char) (ph : Char)
    (defs : MaskDefs) : Nat :=
  let slots := validCaretPositions pattern defs
  match slots.find? (fun i =>
      match value.get? i with
      | some c => c == ph
      | none => true) with
  | some i => i
  | none =>
    match slots.getLast? with
    | some j => j + 1
    | none => 0

/-- Modelled from the spec: `isPatternComplete` (§6, `onCompletePattern`
row): the formatted value has the pattern's length and every slot
position holds a character accepted by that slot's rule. -/
def isPatternComplete (formatted pattern : List Char) (defs : MaskDefs) : Bool :=
  formatted.length == pattern.length &&
    (formatted.zip pattern).all (fun vp =>
      match lookupRule defs vp.2 with
      | some r => r.accepts vp.1
      | none => true)

/-- A validated configuration: the closure state of `createTextMask`
after its checks passed (lines 13-23 of `createTextMask.js`, defaults
already resolved).  The two callbacks are modelled as presence flags. -/
structure Config where
  pattern : List Char
  placeholder : Char
  maskDefinitions : MaskDefs
  guide : Bool
  stripMask : Bool
  allowEmpty : Bool
  hasOnChange : Bool
  hasOnCompletePattern : Bool

/-- The options record accepted by `createTextMask`; `none` models an
absent (JS `undefined`) option. -/
structure Options where
  pattern : Option (List Char)
  placeholder : Option (List Char)
  maskDefinitions : Option MaskDefs
  guide : Option Bool
  stripMask : Option Bool
  allowEmpty : Option Bool
  hasOnChange : Bool
  hasOnCompletePattern : Bool

/-- `createTextMask` construction checks (`createTextMask.js` lines
25-54): missing/empty pattern, placeholder not a single character, no
valid caret position, placeholder matching a mask definition; on
success the validated configuration is returned. -/
def createTextMask (o : Options) : Except String Config :=
  let pattern := o.pattern.getD []
  let placeholderS := o.placeholder.getD ['_']
  let defs := o.maskDefinitions.getD defaultMaskDefinitions
  if o.pattern.isNone || pattern.isEmpty then
    Except.error "The key pattern is required for createTextMask."
  else if placeholderS.length != 1 then
    Except.error "The key placeholder should have a single character as a value."
  else if (validCaretPositions pattern defs).isEmpty then
    Except.error "The pattern passed for createTextMask is not valid."
  else
    match placeholderS with
    | [c] =>
      if (charMatchTest c defs).isSome then
        Except.error "The placeholder matches a mask definition; the mask is invalid."
      else
        Except.ok
          { pattern := pattern
            placeholder := c
            maskDefinitions := defs
            guide := o.guide.getD true
            stripMask := o.stripMask.getD true
            allowEmpty := o.allowEmpty.getD false
            hasOnChange := o.hasOnChange
            hasOnCompletePattern := o.hasOnCompletePattern }
    | _ =>
      Except.error "The key placeholder should have a single character as a value."

/-- `strippedPattern` (`createTextMask.js` line 56): the pattern
stripped against itself. -/
def strippedPatternOf (cfg : Config) : List Char :=
  maskStrip cfg.pattern cfg.pattern cfg.placeholder cfg.maskDefinitions

/-- `format` (`createTextMask.js` lines 63-89): a falsy store value is
formatted as the empty raw value; otherwise, outside the normalize path
and with `stripMask` off, the store value is returned unchanged;
otherwise the mask is applied. -/
def formatFn (cfg : Config) (storeValue : List Char)
    (calledFromNormalize : Bool) : List Char :=
  if storeValue.isEmpty then
    applyMask [] cfg.pattern cfg.placeholder cfg.guide cfg.allowEmpty cfg.maskDefinitions
  else if !cfg.stripMask && !calledFromNormalize then storeValue
  else
    applyMask storeValue cfg.pattern cfg.placeholder cfg.guide cfg.allowEmpty cfg.maskDefinitions

/-- Result of one `normalize` call: the returned store value, the local
formatted value, and the callback side effects (`onCompleteScheduled`
models the deferred `setTimeout` scheduling of `onCompletePattern`). -/
structure NormalizeResult where
  newValue : List Char
  formattedValue : List Char
  onChangeFired : Bool
  onCompleteScheduled : Bool
  onCompleteArg : List Char

/-- JS inequality `newValue !== previousValue` where `previousValue` may
be `undefined`: a string never equals `undefined`. -/
def jsValueNe (nv : List Char) : Option (List Char) → Bool
  | none => true
  | some p => nv != p

/-- `normalize` (`createTextMask.js` lines 91-142).  Where the helpers
consume a possibly-`undefined` previous value they receive the empty
string, modelling the guards of the helpers missing from `src/`. -/
def normalizeRun (cfg : Config) (updatedValue : List Char)
    (previousValue : Option (List Char)) : NormalizeResult :=
  let inputHandledValue := inputReformat updatedValue cfg.pattern cfg.placeholder
      cfg.guide cfg.allowEmpty cfg.maskDefinitions
  let strippedValue := maskStrip inputHandledValue cfg.pattern cfg.placeholder
      cfg.maskDefinitions
  let transformedValue := applyTransform cfg.maskDefinitions strippedValue
      (if cfg.stripMask then previousValue.getD []
       else maskStrip (previousValue.getD []) cfg.pattern cfg.placeholder cfg.maskDefinitions)
      (strippedPatternOf cfg)
  let formattedValue := formatFn cfg transformedValue true
  let newValue := if cfg.stripMask then transformedValue else formattedValue
  let hasValueChanged := jsValueNe newValue previousValue &&
      (!newValue.isEmpty || previousValue.isSome)
  { newValue := newValue
    formattedValue := formattedValue
    onChangeFired := cfg.hasOnChange && hasValueChanged
    onCompleteScheduled := cfg.hasOnCompletePattern &&
      isPatternComplete formattedValue cfg.pattern cfg.maskDefinitions &&
      hasValueChanged
    onCompleteArg := newValue }

/-- Direction argument of `goToNearestValidPosition`. -/
inductive CaretDirection
  | left
  | right
deriving DecidableEq

/-- The loop of `goToNearestValidPosition` (`createTextMask.js` lines
158-165): index of the first element greater than `position`, `none`
when every element is at most `position` (JS leaves the variable
`undefined`). -/
def findIdxGt : List Nat → Nat → Option Nat
  | [], _ => none
  | a :: rest, p => if p < a then some 0 else (findIdxGt rest p).map (fun k => k + 1)

/-- Caret target computed by `goToNearestValidPosition`
(`createTextMask.js` lines 155-184): to the left the element before the
first one exceeding the position, to the right that element itself;
when that lookup is `undefined` (modelled `none`, including the JS
`arr[undefined - 1]` and `arr[-1]` accesses) the fallback is the first
valid position (left) or the last one (right). -/
def nearestValidPosition (vp : List Nat) (position : Nat)
    (dir : CaretDirection) : Option Nat :=
  let caret : Option Nat :=
    match dir with
    | .left =>
      match findIdxGt vp position with
      | some (k + 1) => vp.get? k
      | _ => none
    | .right =>
      match findIdxGt vp position with
      | some k => vp.get? k
      | none => none
  match caret with
  | some c => some c
  | none =>
    match dir with
    | .left => vp.get? 0
    | .right => vp.get? (vp.length - 1)

/-- The host input state the caret controller reads and writes. -/
structure Target where
  value : List Char
  selectionStart : Nat
  selectionEnd : Nat
deriving DecidableEq

/-- The event types `manageCaretPosition` switches on. -/
inductive EventType
  | change
  | focus
  | click
  | keydown
deriving DecidableEq

/-- A caret event: `pre` is the target state captured synchronously
before the timeout (`previousSelection`, `previousValue`), `post` the
state read inside the timeout. -/
structure CaretEvent where
  type : EventType
  key : String
  pre : Target
  post : Target

/-- The single mutation a handler run performs on the host input. -/
inductive CaretAction
  | noop
  | preventDefault
  | setSelection (pos : Option Nat)
deriving DecidableEq

/-- JS `charAt`: out of range yields the empty string, modelled `none`;
two out-of-range reads compare equal, as in JS. -/
def jsCharAt (s : List Char) (i : Nat) : Option Char := s.get? i

/-- `manageCaretPosition` (`createTextMask.js` lines 186-243) as a pure
caret action on the event. -/
def manageCaretAction (cfg : Config) (e : CaretEvent) : CaretAction :=
  let vp := validCaretPositions cfg.pattern cfg.maskDefinitions
  match e.type with
  | .change =>
    if e.post.value.length == e.pre.value.length + 1 &&
        jsCharAt e.post.value e.pre.selectionStart ==
          jsCharAt cfg.pattern e.pre.selectionStart then
      CaretAction.setSelection (nearestValidPosition vp e.pre.selectionStart .left)
    else
      CaretAction.setSelection (some (firstUnfilledPosition e.post.value cfg.pattern
        cfg.placeholder cfg.maskDefinitions))
  | .focus =>
    CaretAction.setSelection (some (firstUnfilledPosition e.post.value cfg.pattern
      cfg.placeholder cfg.maskDefinitions))
  | .click =>
    if e.post.selectionStart == e.post.selectionEnd then
      if vp.contains e.post.selectionStart then
        CaretAction.preventDefault
      else
        CaretAction.setSelection (some (firstUnfilledPosition e.post.value cfg.pattern
          cfg.placeholder cfg.maskDefinitions))
    else CaretAction.noop
  | .keydown =>
    if e.key = "ArrowLeft" then
      CaretAction.setSelection (nearestValidPosition vp e.post.selectionStart .left)
    else if e.key = "ArrowRight" then
      CaretAction.setSelection (nearestValidPosition vp e.pre.selectionStart .right)
    else CaretAction.noop

/-- Effect of a caret action on the host input; `setSelectionRange`
receiving JS `undefined` coerces it to 0. -/
def applyCaretAction (a : CaretAction) (t : Target) : Target :=
  match a with
  | .noop => t
  | .preventDefault => t
  | .setSelection p =>
    { t with selectionStart := p.getD 0, selectionEnd := p.getD 0 }

/-! Concrete configurations and events used by witnesses and
counterexamples. -/

/-- A minimal valid configuration: a single digit slot, default
settings, `onChange` configured. -/
def digitCfg : Config :=
  { pattern := "9".data
    placeholder := '_'
    maskDefinitions := defaultMaskDefinitions
    guide := true
    stripMask := true
    allowEmpty := false
    hasOnChange := true
    hasOnCompletePattern := false }

/-- Two digit slots, `onCompletePattern` configured. -/
def twoSlotCfg : Config :=
  { digitCfg with pattern := "99".data, hasOnChange := false, hasOnCompletePattern := true }

/-- Two uppercase-letter slots. -/
def letterCfg : Config :=
  { digitCfg with pattern := "AA".data, hasOnChange := false }

/-- A change event against `letterCfg`: the value grew by one character
and the character at the previous caret offset 0 equals the pattern
character there, which is the slot marker letter itself, not a literal. -/
def letterChangeEvent : CaretEvent :=
  { type := EventType.change
    key := ""
    pre := { value := "B".data, selectionStart := 0, selectionEnd := 0 }
    post := { value := "AB".data, selectionStart := 2, selectionEnd := 2 } }

/-- A literal followed by two digit slots; its valid caret positions are
1 and 2. -/
def parenCfg : Config :=
  { digitCfg with pattern := "(99".data }

/-- An ArrowLeft keydown against `parenCfg` with the caret past the last
valid position (pre-event offset 4, post-event offset 3). -/
def parenLeftEvent : CaretEvent :=
  { type := EventType.keydown
    key := "ArrowLeft"
    pre := { value := "(12".data, selectionStart := 4, selectionEnd := 4 }
    post := { value := "(12".data, selectionStart := 3, selectionEnd := 3 } }

/-- Digit slot, literal dash, digit slot, literal dash, literal 7: the
literal 7 satisfies the digit slot predicate, which breaks format
idempotence. -/
def dashCfg : Config :=
  { digitCfg with pattern := "9-9-7".data }

/-- Options producing `dashCfg` (all defaults). -/
def dashOpts : Options :=
  { pattern := some "9-9-7".data
    placeholder := none
    maskDefinitions := none
    guide := none
    stripMask := none
    allowEmpty := none
    hasOnChange := true
    hasOnCompletePattern := false }

/-- A configuration with `stripMask` off. -/
def unstrippedCfg : Config :=
  { digitCfg with stripMask := false }

/-! Sanity anchors: the spec's concrete scenarios hold of the modelled
mask applier and pattern analyzer. -/

example :
    applyMask "5551234567".data "(999) 999-9999".data '_' true false
      defaultMaskDefinitions = "(555) 123-4567".data := by decide

example :
    applyMask "555".data "(999) 999-9999".data '_' false false
      defaultMaskDefinitions = "(555".data := by decide

example :
    firstUnfilledPosition "(___) ___-____".data "(999) 999-9999".data '_'
      defaultMaskDefinitions = 1 := by decide

/-! Shared lemmas. -/

/-- Inside the normalize path, `format` always applies the mask: the
falsy branch applies it to the empty value and `calledFromNormalize`
disables the identity branch. -/
theorem formatFn_calledFromNormalize (cfg : Config) (t : List Char) :
    formatFn cfg t true =
      applyMask t cfg.pattern cfg.placeholder cfg.guide cfg.allowEmpty
        cfg.maskDefinitions := by
  cases t <;> simp [formatFn]

/-- C1: `normalize` computes its result by reformatting the edited value
against the pattern (`inputReformat`), stripping literals and
placeholders (`maskStrip`), applying per-slot transforms relative to the
previous stripped value (`applyTransform`), and formatting
(`applyMask`); the stored value it returns is the stripped/transformed
raw value when `stripMask` is true and the fully formatted value when
`stripMask` is false. -/
theorem c1_normalize_pipeline (cfg : Config) (updatedValue : List Char)
    (previousValue : Option (List Char)) :
    (let reformatted := inputReformat updatedValue cfg.pattern cfg.placeholder
        cfg.guide cfg.allowEmpty cfg.maskDefinitions
     let stripped := maskStrip reformatted cfg.pattern cfg.placeholder cfg.maskDefinitions
     let prevStripped := if cfg.stripMask then previousValue.getD []
        else maskStrip (previousValue.getD []) cfg.pattern cfg.placeholder cfg.maskDefinitions
     let transformed := applyTransform cfg.maskDefinitions stripped prevStripped
        (strippedPatternOf cfg)
     let formatted := applyMask transformed cfg.pattern cfg.placeholder cfg.guide
        cfg.allowEmpty cfg.maskDefinitions
     (normalizeRun cfg updatedValue previousValue).newValue =
        (if cfg.stripMask then transformed else formatted) ∧
       (normalizeRun cfg updatedValue previousValue).formattedValue = formatted) := by
  refine ⟨?_, ?_⟩ <;>
    simp only [normalizeRun, formatFn_calledFromNormalize]

/-- When the loop of `goToNearestValidPosition` finds an index, that
index holds an element greater than the position. -/
theorem findIdxGt_some_spec :
    ∀ (vp : List Nat) (p k : Nat), findIdxGt vp p = some k →
      ∃ c, vp.get? k = some c ∧ p < c := by
  intro vp
  induction vp with
  | nil => intro p k h; simp [findIdxGt] at h
  | cons a rest ih =>
    intro p k h
    by_cases hpa : p < a
    · simp only [findIdxGt, if_pos hpa, Option.some.injEq] at h
      exact ⟨a, by simp [← h], hpa⟩
    · simp only [findIdxGt, if_neg hpa] at h
      cases hfi : findIdxGt rest p with
      | none => rw [hfi] at h; simp at h
      | some k' =>
        rw [hfi] at h
        simp only [Option.map_some', Option.some.injEq] at h
        obtain ⟨c, hc, hpc⟩ := ih p k' hfi
        exact ⟨c, by rw [← h]; simpa using hc, hpc⟩

/-- An `Except` is an error exactly when it is not ok. -/
theorem error_iff_not_isOk (e : Except String Config) :
    (∃ msg, e = Except.error msg) ↔ e.isOk = false := by
  cases e <;> simp [Except.isOk, Except.toBool]

/-- C2: `createTextMask` raises an error exactly when the pattern option
is absent, the placeholder is not exactly one character, the pattern has
no valid caret position, or the placeholder satisfies some slot
predicate; otherwise construction succeeds.  (A present-but-empty
pattern errs through `!pattern` in the code and through the empty
valid-position list in this statement: both sides agree on it.) -/
theorem c2_construction_errors (o : Options) :
    (∃ msg, createTextMask o = Except.error msg) ↔
      (o.pattern = none ∨
        (o.placeholder.getD ['_']).length ≠ 1 ∨
        validCaretPositions (o.pattern.getD [])
          (o.maskDefinitions.getD defaultMaskDefinitions) = [] ∨
        ∃ c, o.placeholder.getD ['_'] = [c] ∧
          charMatchTest c (o.maskDefinitions.getD defaultMaskDefinitions) ≠ none) := by
  rw [error_iff_not_isOk]
  rcases hp : o.pattern with _ | pat
  · simp [createTextMask, hp, Except.isOk, Except.toBool]
  · by_cases hpe : pat = []
    · subst hpe
      simp [createTextMask, hp, Except.isOk, Except.toBool, validCaretPositions]
    · have hpe' : pat.isEmpty = false := by
        cases pat with
        | nil => exact absurd rfl hpe
        | cons a l => rfl
      by_cases hl : (o.placeholder.getD ['_']).length = 1
      · obtain ⟨c, hc⟩ : ∃ c, o.placeholder.getD ['_'] = [c] := by
          rcases hphl : o.placeholder.getD ['_'] with _ | ⟨a, _ | ⟨b, m⟩⟩
          · rw [hphl] at hl; simp at hl
          · exact ⟨a, rfl⟩
          · rw [hphl] at hl; simp at hl
        by_cases hvp : validCaretPositions pat
            (o.maskDefinitions.getD defaultMaskDefinitions) = []
        · simp [createTextMask, hp, hpe', hl, hc, hvp, Except.isOk, Except.toBool]
        · by_cases hm : charMatchTest c
              (o.maskDefinitions.getD defaultMaskDefinitions) = none
          · simp [createTextMask, hp, hpe', hl, hc, hvp, hm, Except.isOk,
              Except.toBool]
          · simp [createTextMask, hp, hpe', hl, hc, hvp, hm, Except.isOk,
              Except.toBool, Option.isSome_iff_ne_none]
      · simp [createTextMask, hp, hpe', hl, Except.isOk, Except.toBool]

/-- The boolean fired-condition of `onChange`, characterized in
propositional form. -/
theorem onChange_cond (h : Bool) (nv : List Char) (p : Option (List Char)) :
    (h && (jsValueNe nv p && (!nv.isEmpty || p.isSome))) = true ↔
      (h = true ∧ p ≠ some nv ∧ ¬(nv = [] ∧ p = none)) := by
  cases p with
  | none => cases nv <;> simp [jsValueNe]
  | some q =>
    cases hq : nv == q with
    | true =>
      have : nv = q := by simpa using hq
      subst this
      simp [jsValueNe]
    | false =>
      have hne : q ≠ nv := fun he => by simp [he] at hq
      simp [jsValueNe, bne, hq, hne]

/-- C4 is false as stated: with `onChange` configured, previous value
`undefined` and an empty edit, the newly computed stored value (the
empty string) differs from the previous value by the code's own JS
inequality, yet `onChange` is not fired. -/
theorem c4_counterexample :
    digitCfg.hasOnChange = true ∧
      jsValueNe (normalizeRun digitCfg [] none).newValue none = true ∧
      (normalizeRun digitCfg [] none).onChangeFired = false := by
  refine ⟨rfl, by decide, by decide⟩

/-- C4 amended: `onChange` fires exactly when it is configured, the new
stored value differs from the previous one, and it is not the case that
the new value is empty while the previous value is `undefined`. -/
theorem c4_amended_onChange (cfg : Config) (u : List Char)
    (p : Option (List Char)) :
    (normalizeRun cfg u p).onChangeFired = true ↔
      (cfg.hasOnChange = true ∧ p ≠ some (normalizeRun cfg u p).newValue ∧
        ¬((normalizeRun cfg u p).newValue = [] ∧ p = none)) := by
  have hfe : (normalizeRun cfg u p).onChangeFired =
      (cfg.hasOnChange && (jsValueNe (normalizeRun cfg u p).newValue p &&
        (!(normalizeRun cfg u p).newValue.isEmpty || p.isSome))) := rfl
  rw [hfe, onChange_cond]

/-- The code's JS inequality agrees with option inequality. -/
theorem jsValueNe_eq_true_iff (nv : List Char) (p : Option (List Char)) :
    jsValueNe nv p = true ↔ p ≠ some nv := by
  cases p with
  | none => simp [jsValueNe]
  | some q =>
    simp only [jsValueNe, bne_iff_ne, ne_eq, Option.some.injEq]
    exact ne_comm

/-- A non-empty valid-position list exhibits a slot of the pattern. -/
theorem exists_slot_of_validCaretPositions_ne_nil (pattern : List Char)
    (defs : MaskDefs) (h : validCaretPositions pattern defs ≠ []) :
    ∃ i c, pattern.get? i = some c ∧ isSlot defs c = true := by
  by_contra h2
  push_neg at h2
  apply h
  unfold validCaretPositions
  rw [List.filter_eq_nil_iff]
  intro i _
  cases hi : pattern.get? i with
  | none => simp [hi]
  | some c =>
    have := h2 i c
    simp [hi, this hi]

/-- Evaluate an `all` over a zip at one index. -/
theorem zip_all_get {α β : Type} (pr : α × β → Bool) :
    ∀ (l1 : List α) (l2 : List β) (i : Nat) (a : α) (b : β),
      (l1.zip l2).all pr = true → l1.get? i = some a → l2.get? i = some b →
      pr (a, b) = true := by
  intro l1
  induction l1 with
  | nil => intro l2 i a b _ h1 _; simp at h1
  | cons x xs ih =>
    intro l2 i a b hall h1 h2
    cases l2 with
    | nil => simp at h2
    | cons y ys =>
      simp only [List.zip_cons_cons, List.all_cons, Bool.and_eq_true] at hall
      cases i with
      | zero =>
        have hx : x = a := by simpa using h1
        have hy : y = b := by simpa using h2
        rw [← hx, ← hy]
        exact hall.1
      | succ i' =>
        exact ih ys i' a b hall.2 (by simpa using h1) (by simpa using h2)

/-- At a slot position the skeleton holds the placeholder. -/
theorem skeleton_get?_slot (pattern : List Char) (ph : Char) (defs : MaskDefs)
    (i : Nat) (c : Char) (h1 : pattern.get? i = some c)
    (h2 : isSlot defs c = true) :
    (skeleton pattern ph defs).get? i = some ph := by
  have h1' : pattern[i]? = some c := by
    rw [← List.get?_eq_getElem?]; exact h1
  unfold skeleton
  rw [List.get?_eq_getElem?, List.getElem?_map, h1']
  simp [h2]

/-- When no table predicate accepts the placeholder, no slot rule does. -/
theorem not_accepts_of_charMatchTest_none (defs : MaskDefs) (ph c : Char)
    (r : MaskRule) (h : charMatchTest ph defs = none)
    (hr : lookupRule defs c = some r) : r.accepts ph = false := by
  unfold charMatchTest at h
  rw [Option.map_eq_none'] at h
  have hall := List.find?_eq_none.mp h
  unfold lookupRule at hr
  rw [Option.map_eq_some'] at hr
  obtain ⟨kv, hkv, hkv2⟩ := hr
  have hmem := List.mem_of_find?_eq_some hkv
  have hnot := hall kv hmem
  rw [hkv2] at hnot
  cases hacc : r.accepts ph with
  | false => rfl
  | true => exact absurd hacc hnot

/-- The skeleton never completes a pattern that has a slot, because the
placeholder fails every slot predicate. -/
theorem isPatternComplete_skeleton_false (pattern : List Char) (ph : Char)
    (defs : MaskDefs)
    (hslot : ∃ i c, pattern.get? i = some c ∧ isSlot defs c = true)
    (hph : charMatchTest ph defs = none) :
    isPatternComplete (skeleton pattern ph defs) pattern defs = false := by
  obtain ⟨i, c, hi, hc⟩ := hslot
  cases hcm : isPatternComplete (skeleton pattern ph defs) pattern defs with
  | false => rfl
  | true =>
    exfalso
    unfold isPatternComplete at hcm
    rw [Bool.and_eq_true] at hcm
    obtain ⟨r, hr⟩ := Option.isSome_iff_exists.mp hc
    have hsk := skeleton_get?_slot pattern ph defs i c hi hc
    have hpr := zip_all_get _ _ _ i ph c hcm.2 hsk hi
    rw [hr] at hpr
    simp only at hpr
    exact absurd hpr (by simp [not_accepts_of_charMatchTest_none defs ph c r hph hr])

/-- Applying the mask to the empty raw value with `allowEmpty` yields
the skeleton. -/
theorem applyMask_nil_allowEmpty (pattern : List Char) (ph : Char)
    (guide : Bool) (defs : MaskDefs) :
    applyMask [] pattern ph guide true defs = skeleton pattern ph defs := by
  simp [applyMask]

/-- Applying the mask to the empty raw value without `allowEmpty` yields
the empty string. -/
theorem applyMask_nil_noEmpty (pattern : List Char) (ph : Char)
    (guide : Bool) (defs : MaskDefs) :
    applyMask [] pattern ph guide false defs = [] := by
  simp [applyMask]

/-- C5: with construction's invariants (some valid caret position, a
placeholder matching no slot predicate) and `onCompletePattern`
configured, the callback is scheduled (once, deferred, with the new
stored value) exactly when the formatted value completes the pattern and
the stored value actually changed. -/
theorem c5_onCompletePattern (cfg : Config) (u : List Char)
    (p : Option (List Char))
    (h1 : charMatchTest cfg.placeholder cfg.maskDefinitions = none)
    (h2 : validCaretPositions cfg.pattern cfg.maskDefinitions ≠ [])
    (h3 : cfg.hasOnCompletePattern = true) :
    ((normalizeRun cfg u p).onCompleteScheduled = true ↔
      (isPatternComplete (normalizeRun cfg u p).formattedValue cfg.pattern
          cfg.maskDefinitions = true ∧
        p ≠ some (normalizeRun cfg u p).newValue)) ∧
      (normalizeRun cfg u p).onCompleteArg = (normalizeRun cfg u p).newValue := by
  have harg : (normalizeRun cfg u p).onCompleteArg =
      (normalizeRun cfg u p).newValue := rfl
  have hsched : (normalizeRun cfg u p).onCompleteScheduled =
      (cfg.hasOnCompletePattern &&
        isPatternComplete (normalizeRun cfg u p).formattedValue cfg.pattern
          cfg.maskDefinitions &&
        (jsValueNe (normalizeRun cfg u p).newValue p &&
          (!(normalizeRun cfg u p).newValue.isEmpty || p.isSome))) := rfl
  have hslot := exists_slot_of_validCaretPositions_ne_nil _ _ h2
  have hpatne : cfg.pattern ≠ [] := by
    obtain ⟨i, c, hi, -⟩ := hslot
    intro hnil
    rw [hnil] at hi
    simp at hi
  have hkey : isPatternComplete (normalizeRun cfg u p).formattedValue cfg.pattern
      cfg.maskDefinitions = true → (normalizeRun cfg u p).newValue ≠ [] := by
    intro hcm
    have hlen : (normalizeRun cfg u p).formattedValue.length = cfg.pattern.length := by
      unfold isPatternComplete at hcm
      rw [Bool.and_eq_true] at hcm
      simpa using hcm.1
    cases hsm : cfg.stripMask with
    | false =>
      have hnv : (normalizeRun cfg u p).newValue =
          (normalizeRun cfg u p).formattedValue := by
        simp [normalizeRun, hsm]
      rw [hnv]
      intro hne
      rw [hne] at hlen
      exact hpatne (List.length_eq_zero.mp hlen.symm)
    | true =>
      have hfv : (normalizeRun cfg u p).formattedValue =
          formatFn cfg ((normalizeRun cfg u p).newValue) true := by
        simp [normalizeRun, hsm]
      intro hne
      rw [hne] at hfv
      have hfv2 : (normalizeRun cfg u p).formattedValue =
          applyMask [] cfg.pattern cfg.placeholder cfg.guide cfg.allowEmpty
            cfg.maskDefinitions := by
        rw [hfv]; rfl
      cases hae : cfg.allowEmpty with
      | false =>
        rw [hae, applyMask_nil_noEmpty] at hfv2
        rw [hfv2] at hlen
        exact hpatne (List.length_eq_zero.mp hlen.symm)
      | true =>
        rw [hae, applyMask_nil_allowEmpty] at hfv2
        rw [hfv2] at hcm
        rw [isPatternComplete_skeleton_false cfg.pattern cfg.placeholder
          cfg.maskDefinitions hslot h1] at hcm
        exact Bool.false_ne_true hcm
  refine ⟨?_, harg⟩
  constructor
  · intro hs
    rw [hsched] at hs
    simp only [Bool.and_eq_true] at hs
    exact ⟨hs.1.2, (jsValueNe_eq_true_iff _ _).mp hs.2.1⟩
  · rintro ⟨hcm, hne⟩
    rw [hsched]
    simp only [Bool.and_eq_true]
    refine ⟨⟨h3, hcm⟩, (jsValueNe_eq_true_iff _ _).mpr hne, ?_⟩
    have := hkey hcm
    have hie : (normalizeRun cfg u p).newValue.isEmpty = false := by
      cases hx : (normalizeRun cfg u p).newValue with
      | nil => exact absurd hx this
      | cons a l => rfl
    simp [hie]

/-- Witness for C5: completing the two-digit pattern on a change fires
the deferred callback with the new stored value. -/
theorem c5_witness :
    charMatchTest twoSlotCfg.placeholder twoSlotCfg.maskDefinitions = none ∧
      validCaretPositions twoSlotCfg.pattern twoSlotCfg.maskDefinitions ≠ [] ∧
      (normalizeRun twoSlotCfg "12".data (some "1".data)).onCompleteScheduled = true := by
  refine ⟨by decide, by decide, ?_⟩
  have h := c5_onCompletePattern twoSlotCfg "12".data (some "1".data)
    (by decide) (by decide) rfl
  exact (h.1).mpr ⟨by decide, by decide⟩

/-- C6 amended: on a change event the backspace-over-literal branch is
taken exactly when the value grew by one character and the post-edit
value's character at the previous caret offset equals the pattern
character there, literal or not (JS charAt semantics, two out-of-range
reads comparing equal); otherwise the caret moves to the first unfilled
position. -/
theorem c6_amended_change (cfg : Config) (e : CaretEvent)
    (h : e.type = EventType.change) :
    manageCaretAction cfg e =
      (if e.post.value.length = e.pre.value.length + 1 ∧
          jsCharAt e.post.value e.pre.selectionStart =
            jsCharAt cfg.pattern e.pre.selectionStart then
        CaretAction.setSelection
          (nearestValidPosition (validCaretPositions cfg.pattern cfg.maskDefinitions)
            e.pre.selectionStart CaretDirection.left)
      else
        CaretAction.setSelection
          (some (firstUnfilledPosition e.post.value cfg.pattern cfg.placeholder
            cfg.maskDefinitions))) := by
  obtain ⟨ty, key, pre, post⟩ := e
  simp only at h
  subst h
  by_cases hc : post.value.length = pre.value.length + 1 ∧
      jsCharAt post.value pre.selectionStart = jsCharAt cfg.pattern pre.selectionStart
  · rw [if_pos hc]
    simp [manageCaretAction, hc.1, hc.2]
  · rw [if_neg hc]
    simp only [manageCaretAction]
    rw [if_neg]
    simpa [Bool.and_eq_true, beq_iff_eq] using hc

/-- Witness for the amended C6 at a concrete change event. -/
theorem c6_amended_witness :
    letterChangeEvent.type = EventType.change ∧
      manageCaretAction letterCfg letterChangeEvent =
        CaretAction.setSelection (some 0) := by
  refine ⟨rfl, ?_⟩
  rw [c6_amended_change letterCfg letterChangeEvent rfl]
  decide

/-- C6 is false as stated: the pattern character at the previous offset
is the slot marker letter, not a literal, yet because the post-edit
value holds that same letter there the code takes the backspace branch
and sets the caret to 0 instead of the first unfilled position 2. -/
theorem c6_counterexample :
    manageCaretAction letterCfg letterChangeEvent =
        CaretAction.setSelection (some 0) ∧
      isSlot letterCfg.maskDefinitions 'A' = true ∧
      letterChangeEvent.post.value.length =
        letterChangeEvent.pre.value.length + 1 ∧
      firstUnfilledPosition letterChangeEvent.post.value letterCfg.pattern
        letterCfg.placeholder letterCfg.maskDefinitions = 2 ∧
      (0 : Nat) ≠ 2 := by
  refine ⟨by decide, by decide, by decide, by decide, by decide⟩

/-- The loop of `goToNearestValidPosition` finds no index exactly when
every valid position is at most the given position. -/
theorem findIdxGt_eq_none_iff (vp : List Nat) (p : Nat) :
    findIdxGt vp p = none ↔ ∀ y ∈ vp, y ≤ p := by
  induction vp with
  | nil => simp [findIdxGt]
  | cons a rest ih =>
    by_cases h : p < a
    · simp only [findIdxGt, if_pos h]
      constructor
      · intro hx; exact absurd hx (Option.some_ne_none 0)
      · intro hall
        exact absurd (hall a (List.mem_cons_self a rest)) (Nat.not_le_of_lt h)
    · simp only [findIdxGt, if_neg h]
      have ha : a ≤ p := Nat.le_of_not_lt h
      constructor
      · intro hx y hy
        have hnone : findIdxGt rest p = none := by
          cases hfi : findIdxGt rest p with
          | none => rfl
          | some k => rw [hfi] at hx; simp at hx
        rcases List.mem_cons.mp hy with rfl | hy'
        · exact ha
        · exact (ih.mp hnone) y hy'
      · intro hall
        have : findIdxGt rest p = none :=
          ih.mpr (fun y hy => hall y (List.mem_cons_of_mem a hy))
        rw [this]
        rfl

/-- Elements strictly before the found index are at most the position. -/
theorem findIdxGt_prefix_le :
    ∀ (vp : List Nat) (p k j : Nat), findIdxGt vp p = some k → j < k →
      ∃ c, vp.get? j = some c ∧ c ≤ p := by
  intro vp
  induction vp with
  | nil => intro p k j h _; simp [findIdxGt] at h
  | cons a rest ih =>
    intro p k j h hj
    by_cases hpa : p < a
    · simp only [findIdxGt, if_pos hpa, Option.some.injEq] at h
      omega
    · simp only [findIdxGt, if_neg hpa] at h
      cases hfi : findIdxGt rest p with
      | none => rw [hfi] at h; simp at h
      | some k' =>
        rw [hfi] at h
        simp only [Option.map_some', Option.some.injEq] at h
        cases j with
        | zero => exact ⟨a, rfl, Nat.le_of_not_lt hpa⟩
        | succ j' =>
          have hjk : j' < k' := by omega
          obtain ⟨c, hc, hcp⟩ := ih p k' j' hfi hjk
          exact ⟨c, by simpa using hc, hcp⟩

/-- In a strictly ascending list, entries at smaller indices are
smaller. -/
theorem pairwise_get?_lt :
    ∀ (vp : List Nat), List.Pairwise (· < ·) vp →
      ∀ (i j c d : Nat), i < j → vp.get? i = some c → vp.get? j = some d →
        c < d := by
  intro vp
  induction vp with
  | nil => intro _ i j c d _ hc _; simp at hc
  | cons a rest ih =>
    intro hp i j c d hij hc hd
    rw [List.pairwise_cons] at hp
    cases i with
    | zero =>
      have hca : a = c := by simpa using hc
      cases j with
      | zero => omega
      | succ j' =>
        have hd' : rest.get? j' = some d := by simpa using hd
        exact hca ▸ hp.1 d (List.get?_mem hd')
    | succ i' =>
      cases j with
      | zero => omega
      | succ j' =>
        exact ih hp.2 i' j' c d (by omega) (by simpa using hc) (by simpa using hd)

/-- The head of a strictly ascending non-empty list is its minimum. -/
theorem sorted_head_min (vp : List Nat) (hs : List.Pairwise (· < ·) vp)
    (hne : vp ≠ []) : ∃ c, vp.get? 0 = some c ∧ ∀ y ∈ vp, c ≤ y := by
  cases vp with
  | nil => exact absurd rfl hne
  | cons a rest =>
    rw [List.pairwise_cons] at hs
    refine ⟨a, rfl, ?_⟩
    intro y hy
    rcases List.mem_cons.mp hy with rfl | hy'
    · exact Nat.le_refl y
    · exact Nat.le_of_lt (hs.1 y hy')

/-- The last entry of a strictly ascending non-empty list is its
maximum. -/
theorem sorted_last_max (vp : List Nat) (hs : List.Pairwise (· < ·) vp)
    (hne : vp ≠ []) :
    ∃ c, vp.get? (vp.length - 1) = some c ∧ ∀ y ∈ vp, y ≤ c := by
  have hpos : 0 < vp.length := List.length_pos.mpr hne
  have hlt : vp.length - 1 < vp.length := Nat.sub_lt hpos Nat.one_pos
  refine ⟨vp.get ⟨_, hlt⟩, List.get?_eq_get hlt, ?_⟩
  intro y hy
  obtain ⟨⟨j, hj⟩, hyg⟩ := List.mem_iff_get.mp hy
  by_cases hje : j = vp.length - 1
  · subst hje
    rw [← hyg]
  · have hjlt : j < vp.length - 1 := by omega
    have := pairwise_get?_lt vp hs j (vp.length - 1) y _ hjlt
      (by rw [← hyg]; exact List.get?_eq_get hj) (List.get?_eq_get hlt)
    exact Nat.le_of_lt this

/-- C3 amended: on ArrowRight the caret is set to the least valid
position strictly greater than the pre-event offset, or to the last
valid position when none exceeds it; on ArrowLeft the caret is set to
the greatest valid position at or below (not strictly below) the
post-event offset whenever some valid position strictly exceeds that
offset, and otherwise (offset below every valid position, or at or above
the last one) to the first valid position.  The keydown handler feeds
the post-event selection to the left move and the pre-event selection to
the right move. -/
theorem c3_amended_nearest (vp : List Nat) (p : Nat)
    (hs : List.Pairwise (· < ·) vp) (hne : vp ≠ []) :
    (∃ c, nearestValidPosition vp p CaretDirection.right = some c ∧ c ∈ vp ∧
        ((p < c ∧ ∀ y ∈ vp, p < y → c ≤ y) ∨
          ((∀ y ∈ vp, y ≤ p) ∧ ∀ y ∈ vp, y ≤ c))) ∧
      (∃ c, nearestValidPosition vp p CaretDirection.left = some c ∧ c ∈ vp ∧
        ((c ≤ p ∧ (∀ y ∈ vp, y ≤ p → y ≤ c) ∧ ∃ z ∈ vp, p < z) ∨
          (((∀ y ∈ vp, p < y) ∨ (∀ y ∈ vp, y ≤ p)) ∧ ∀ y ∈ vp, c ≤ y))) ∧
      (∀ (cfg : Config) (e : CaretEvent), e.type = EventType.keydown →
        (e.key = "ArrowLeft" →
          manageCaretAction cfg e = CaretAction.setSelection
            (nearestValidPosition
              (validCaretPositions cfg.pattern cfg.maskDefinitions)
              e.post.selectionStart CaretDirection.left)) ∧
        (e.key = "ArrowRight" →
          manageCaretAction cfg e = CaretAction.setSelection
            (nearestValidPosition
              (validCaretPositions cfg.pattern cfg.maskDefinitions)
              e.pre.selectionStart CaretDirection.right))) := by
  refine ⟨?_, ?_, ?_⟩
  · -- ArrowRight
    cases hfi : findIdxGt vp p with
    | none =>
      obtain ⟨c, hc, hmax⟩ := sorted_last_max vp hs hne
      have hmem := List.get?_mem hc
      rw [List.get?_eq_getElem?] at hc
      refine ⟨c, ?_, hmem, Or.inr ⟨(findIdxGt_eq_none_iff vp p).mp hfi, hmax⟩⟩
      simp [nearestValidPosition, hfi, hc]
    | some k =>
      obtain ⟨c, hc, hpc⟩ := findIdxGt_some_spec vp p k hfi
      have hmem := List.get?_mem hc
      have hc' := hc
      rw [List.get?_eq_getElem?] at hc'
      refine ⟨c, by simp [nearestValidPosition, hfi, hc'], hmem, Or.inl ⟨hpc, ?_⟩⟩
      intro y hy hpy
      obtain ⟨⟨j, hj⟩, hyg⟩ := List.mem_iff_get.mp hy
      have hyj : vp.get? j = some y := by rw [← hyg]; exact List.get?_eq_get hj
      rcases Nat.lt_trichotomy j k with hjk | hjk | hjk
      · obtain ⟨c', hc'', hc'p⟩ := findIdxGt_prefix_le vp p k j hfi hjk
        rw [hyj] at hc''
        cases hc''
        omega
      · rw [hjk] at hyj
        rw [hyj] at hc
        cases hc
        exact Nat.le_refl _
      · exact Nat.le_of_lt (pairwise_get?_lt vp hs k j c y hjk hc hyj)
  · -- ArrowLeft
    cases hfi : findIdxGt vp p with
    | none =>
      obtain ⟨c, hc, hmin⟩ := sorted_head_min vp hs hne
      have hmem := List.get?_mem hc
      rw [List.get?_eq_getElem?] at hc
      refine ⟨c, ?_, hmem,
        Or.inr ⟨Or.inr ((findIdxGt_eq_none_iff vp p).mp hfi), hmin⟩⟩
      simp [nearestValidPosition, hfi, hc]
    | some k =>
      cases k with
      | zero =>
        obtain ⟨c, hc, hmin⟩ := sorted_head_min vp hs hne
        obtain ⟨d, hd, hpd⟩ := findIdxGt_some_spec vp p 0 hfi
        have hcd : c = d := by rw [hc] at hd; cases hd; rfl
        have hmem := List.get?_mem hc
        have hc' := hc
        rw [List.get?_eq_getElem?] at hc'
        refine ⟨c, ?_, hmem, Or.inr ⟨Or.inl ?_, hmin⟩⟩
        · simp [nearestValidPosition, hfi, hc']
        · intro y hy
          exact Nat.lt_of_lt_of_le (hcd ▸ hpd) (hmin y hy)
      | succ k' =>
        obtain ⟨c, hck, hcp⟩ := findIdxGt_prefix_le vp p (k' + 1) k' hfi
          (Nat.lt_succ_self k')
        obtain ⟨d, hd, hpd⟩ := findIdxGt_some_spec vp p (k' + 1) hfi
        have hmem := List.get?_mem hck
        have hck' := hck
        rw [List.get?_eq_getElem?] at hck'
        refine ⟨c, by simp [nearestValidPosition, hfi, hck'], hmem,
          Or.inl ⟨hcp, ?_, d, List.get?_mem hd, hpd⟩⟩
        intro y hy hyp
        obtain ⟨⟨j, hj⟩, hyg⟩ := List.mem_iff_get.mp hy
        have hyj : vp.get? j = some y := by rw [← hyg]; exact List.get?_eq_get hj
        rcases Nat.lt_trichotomy j k' with hjk | hjk | hjk
        · exact Nat.le_of_lt (pairwise_get?_lt vp hs j k' y c hjk hyj hck)
        · rw [hjk] at hyj
          rw [hyj] at hck
          cases hck
          exact Nat.le_refl _
        · exfalso
          rcases Nat.lt_or_ge j (k' + 1) with h1 | h1
          · omega
          · rcases Nat.eq_or_lt_of_le h1 with h2 | h2
            · rw [← h2] at hyj
              rw [hyj] at hd
              cases hd
              omega
            · have := pairwise_get?_lt vp hs (k' + 1) j d y h2 hd hyj
              omega
  · -- keydown wiring
    intro cfg e ht
    obtain ⟨ty, key, pre, post⟩ := e
    simp only at ht
    subst ht
    constructor
    · intro hk
      simp only at hk
      subst hk
      simp [manageCaretAction]
    · intro hk
      simp only at hk
      subst hk
      simp [manageCaretAction]

/-- C3 is false as stated: against pattern literal-paren digit digit the
valid positions are 1 and 2; an ArrowLeft keydown with the caret past
the last valid position (post-event offset 3, pre-event offset 4) sets
the caret to the first valid position 1, although 2 is a valid position
strictly below both offsets and nearer. -/
theorem c3_counterexample :
    manageCaretAction parenCfg parenLeftEvent = CaretAction.setSelection (some 1) ∧
      validCaretPositions parenCfg.pattern parenCfg.maskDefinitions = [1, 2] ∧
      parenLeftEvent.post.selectionStart = 3 ∧
      parenLeftEvent.pre.selectionStart = 4 ∧
      (2 : Nat) < 3 ∧ (1 : Nat) ≠ 2 := by
  refine ⟨by decide, by decide, rfl, rfl, by decide, by decide⟩

/-- Witness for the amended C3 at the concrete list of valid positions
1 and 3 with offset 2. -/
theorem c3_amended_witness :
    List.Pairwise (· < ·) ([1, 3] : List Nat) ∧ ([1, 3] : List Nat) ≠ [] ∧
      (∃ c, nearestValidPosition [1, 3] 2 CaretDirection.right = some c ∧
        c ∈ ([1, 3] : List Nat) ∧
        ((2 < c ∧ ∀ y ∈ ([1, 3] : List Nat), 2 < y → c ≤ y) ∨
          ((∀ y ∈ ([1, 3] : List Nat), y ≤ 2) ∧
            ∀ y ∈ ([1, 3] : List Nat), y ≤ c))) :=
  ⟨by simp, by simp,
    (c3_amended_nearest [1, 3] 2 (by simp) (by simp)).1⟩

/-- C7: once the valid-position list is non-empty, every caret lookup of
`goToNearestValidPosition` resolves, through its fallback, to some
element of that list, for every offset and direction. -/
theorem c7_nearest_position_total (vp : List Nat) (position : Nat)
    (dir : CaretDirection) (h : vp ≠ []) :
    ∃ c, nearestValidPosition vp position dir = some c ∧ c ∈ vp := by
  have hpos : 0 < vp.length := List.length_pos.mpr h
  cases dir with
  | left =>
    cases hfi : findIdxGt vp position with
    | none =>
      cases vp with
      | nil => exact absurd rfl h
      | cons a rest =>
        exact ⟨a, by simp [nearestValidPosition, hfi], List.mem_cons_self a rest⟩
    | some k =>
      cases k with
      | zero =>
        cases vp with
        | nil => exact absurd rfl h
        | cons a rest =>
          exact ⟨a, by simp [nearestValidPosition, hfi], List.mem_cons_self a rest⟩
      | succ k' =>
        obtain ⟨d, hd, -⟩ := findIdxGt_some_spec vp position (k' + 1) hfi
        have hlen : k' + 1 < vp.length := (List.get?_eq_some.mp hd).1
        have hk' : k' < vp.length := Nat.lt_of_succ_lt hlen
        have hg : vp.get? k' = some (vp.get ⟨k', hk'⟩) := List.get?_eq_get hk'
        rw [List.get?_eq_getElem?] at hg
        refine ⟨vp.get ⟨k', hk'⟩, ?_, List.get_mem vp k' hk'⟩
        simp [nearestValidPosition, hfi, hg]
  | right =>
    cases hfi : findIdxGt vp position with
    | none =>
      have hlt : vp.length - 1 < vp.length := Nat.sub_lt hpos Nat.one_pos
      refine ⟨vp.get ⟨vp.length - 1, hlt⟩, ?_, List.get_mem vp _ hlt⟩
      simp [nearestValidPosition, hfi, List.get?_eq_get hlt]
    | some k =>
      obtain ⟨d, hd, -⟩ := findIdxGt_some_spec vp position k hfi
      have hmem := List.get?_mem hd
      rw [List.get?_eq_getElem?] at hd
      exact ⟨d, by simp [nearestValidPosition, hfi, hd], hmem⟩

/-- Witness for C7 at the concrete list `[1, 2]`. -/
theorem c7_witness :
    ([1, 2] : List Nat) ≠ [] ∧
      ∃ c, nearestValidPosition [1, 2] 0 CaretDirection.right = some c ∧
        c ∈ ([1, 2] : List Nat) :=
  ⟨by decide, c7_nearest_position_total [1, 2] 0 CaretDirection.right (by decide)⟩

/-- C8: every run of the caret controller leaves the host input's value
unchanged, and when it does mutate the selection it sets a collapsed
range. -/
theorem c8_caret_management_only (cfg : Config) (e : CaretEvent) :
    (applyCaretAction (manageCaretAction cfg e) e.post).value = e.post.value ∧
      (applyCaretAction (manageCaretAction cfg e) e.post = e.post ∨
        (applyCaretAction (manageCaretAction cfg e) e.post).selectionStart =
          (applyCaretAction (manageCaretAction cfg e) e.post).selectionEnd) := by
  cases h : manageCaretAction cfg e with
  | noop => simp [applyCaretAction]
  | preventDefault => simp [applyCaretAction]
  | setSelection p => simp [applyCaretAction]

/-- C9 is false as stated: in the valid configuration `dashCfg`
(pattern digit-dash-digit-dash-7, guide on, mask stripped), the stored
value consisting of the single digit 1 formats to a value that formats
differently the second time: the unfilled second slot consumes the
trailing literal 7 on the second pass. -/
theorem c9_counterexample :
    (createTextMask dashOpts).isOk = true ∧
      formatFn dashCfg (formatFn dashCfg ['1'] false) false ≠
        formatFn dashCfg ['1'] false := by
  refine ⟨by decide, by decide⟩

/-- C9 amended: format is idempotent whenever `stripMask` is false (the
externally stored value is then already formatted and format is the
identity on it); with `stripMask` on, idempotence fails for some valid
stored values. -/
theorem c9_amended_idempotent (cfg : Config) (x : List Char)
    (h : cfg.stripMask = false) :
    formatFn cfg (formatFn cfg x false) false = formatFn cfg x false := by
  by_cases hx : x.isEmpty
  · by_cases hy : (applyMask [] cfg.pattern cfg.placeholder cfg.guide cfg.allowEmpty
        cfg.maskDefinitions).isEmpty
    · simp [formatFn, hx, hy]
    · simp [formatFn, hx, hy, h]
  · simp [formatFn, hx, h]

/-- Witness for the amended C9 at a concrete unstripped configuration. -/
theorem c9_amended_witness :
    unstrippedCfg.stripMask = false ∧
      formatFn unstrippedCfg (formatFn unstrippedCfg "ab".data false) false =
        formatFn unstrippedCfg "ab".data false :=
  ⟨rfl, c9_amended_idempotent unstrippedCfg "ab".data rfl⟩

/-- C10: with `stripMask` false, `format` is the identity on every
non-empty stored value, and formats every falsy (empty) stored value as
the mask applied to the empty string. -/
theorem c10_format_identity (cfg : Config) (x : List Char)
    (h : cfg.stripMask = false) :
    (x ≠ [] → formatFn cfg x false = x) ∧
      formatFn cfg [] false =
        applyMask [] cfg.pattern cfg.placeholder cfg.guide cfg.allowEmpty
          cfg.maskDefinitions := by
  constructor
  · intro hx
    have hx' : x.isEmpty = false := by
      cases x with
      | nil => exact absurd rfl hx
      | cons a l => rfl
    simp [formatFn, hx', h]
  · simp [formatFn]

/-- Witness for C10 at a concrete unstripped configuration. -/
theorem c10_witness :
    unstrippedCfg.stripMask = false ∧
      formatFn unstrippedCfg ['a'] false = ['a'] ∧
      formatFn unstrippedCfg [] false =
        applyMask [] unstrippedCfg.pattern unstrippedCfg.placeholder
          unstrippedCfg.guide unstrippedCfg.allowEmpty
          unstrippedCfg.maskDefinitions :=
  ⟨rfl, (c10_format_identity unstrippedCfg ['a'] rfl).1 (by decide),
    (c10_format_identity unstrippedCfg ['a'] rfl).2⟩

end TextMask
